import Mathlib

/-!
Shallow embedding of the URL routing and dispatch engine of
`bocadillo/routing.py` (the `Route`, `RouteMatch` and `Router` classes and
the `check_route` validator), together with models of the boundary
collaborators that the source file imports but that are not part of the
routing module itself (the view contract of `views.py`, the exception
classes of `exceptions.py`, and the third-party pattern matcher `parse`).

Strings are handled as `List Char` internally; route parameter mappings are
association lists `List (String × String)` mirroring Python dicts (which
preserve insertion order).
-/

namespace Bocadillo

/-- Association-list lookup, mirroring Python dict `d[k]` / `k in d`. -/
def lookupKey {α : Type} : List (String × α) → String → Option α
  | [], _ => none
  | (k, v) :: rest, n => if k = n then some v else lookupKey rest n

/-- One token of a format pattern, as produced by Python's
`string.Formatter().parse`: either a literal character or a brace-delimited
replacement field carrying its field name (possibly empty for `\x7b\x7d`). -/
inductive FTok
  | lit (c : Char)
  | field (name : String)
deriving DecidableEq, Repr

mutual

/-- Tokenizer for format patterns: model of `string.Formatter().parse`
restricted to the feature subset the router uses (no `\x7b\x7b` escapes, no
conversion or format-spec suffixes).  `none` models the `ValueError` that
`Formatter().parse` raises on an unbalanced brace. -/
def ftGo : List Char → Option (List FTok)
  | [] => some []
  | c :: rest =>
    if c = '\x7b' then ftField rest []
    else if c = '\x7d' then none
    else (ftGo rest).map (fun ts => FTok.lit c :: ts)

/-- Reading the inside of a replacement field up to the closing brace;
`acc` holds the characters of the field name read so far (reversed). -/
def ftField : List Char → List Char → Option (List FTok)
  | [], _ => none
  | c :: rest, acc =>
    if c = '\x7d' then
      (ftGo rest).map (fun ts => FTok.field (String.mk acc.reverse) :: ts)
    else if c = '\x7b' then none
    else ftField rest (c :: acc)

end

/-- Tokenize a pattern string. -/
def formatTokens (pattern : String) : Option (List FTok) :=
  ftGo pattern.data

/-- All field names of a token list, in order (anonymous fields included,
as the empty string). -/
def fieldNames (toks : List FTok) : List String :=
  toks.filterMap fun t =>
    match t with
    | FTok.lit _ => none
    | FTok.field n => some n

/-- The route parameters `check_route` extracts from a pattern:
`\x7bname for _, name, _, _ in parsed_format if name\x7d` — only truthy
(non-empty) field names count. -/
def routeParameters (toks : List FTok) : List String :=
  toks.filterMap fun t =>
    match t with
    | FTok.lit _ => none
    | FTok.field n => if n = "" then none else some n

/-- Error raised while substituting a pattern, model of the exceptions of
Python's `str.format`: `missingParameter n` models the `KeyError` for a
named field with no corresponding keyword argument (the spec's
`MissingParameter` condition), `valueError` models the `IndexError` /
`ValueError` for an anonymous field or malformed pattern. -/
inductive UrlErr
  | missingParameter (name : String)
  | valueError
deriving DecidableEq, Repr

/-- Substitution over a token list: model of `str.format(**kwargs)` with
the keyword arguments `m`. -/
def formatChars (m : List (String × String)) : List FTok → Except UrlErr (List Char)
  | [] => Except.ok []
  | FTok.lit c :: ts =>
    match formatChars m ts with
    | Except.ok cs => Except.ok (c :: cs)
    | Except.error e => Except.error e
  | FTok.field n :: ts =>
    if n = "" then Except.error UrlErr.valueError
    else
      match lookupKey m n with
      | none => Except.error (UrlErr.missingParameter n)
      | some v =>
        match formatChars m ts with
        | Except.ok cs => Except.ok (v.data ++ cs)
        | Except.error e => Except.error e

/-- One segment of a pattern in the spec's pattern grammar: a literal
segment or a named placeholder standing for a whole path segment. -/
inductive Seg
  | lit (s : List Char)
  | hole (name : String)
deriving DecidableEq, Repr

/-- Modelled from the spec: the Pattern Matcher's view of a pattern (the
third-party `parse` library is not in src).  The spec's grammar has each
segment either literal or a single named placeholder (glossary:
"Placeholder: a named, braced segment in a pattern standing for one path
segment of arbitrary text"); token lists outside that grammar give `none`. -/
def segsOfToks : List FTok → Option (List Seg)
  | [] => some [Seg.lit []]
  | FTok.lit c :: ts =>
    if c = '/' then (segsOfToks ts).map (fun ss => Seg.lit [] :: ss)
    else
      match segsOfToks ts with
      | some (Seg.lit s :: ss) => some (Seg.lit (c :: s) :: ss)
      | _ => none
  | FTok.field n :: ts =>
    if n = "" then none
    else
      match segsOfToks ts with
      | some (Seg.lit [] :: ss) => some (Seg.hole n :: ss)
      | _ => none

/-- Placeholder names of a segment list, in order. -/
def holeNames (segs : List Seg) : List String :=
  segs.filterMap fun s =>
    match s with
    | Seg.lit _ => none
    | Seg.hole n => some n

/-- Split a character list on the path separator, mirroring Python's
`".split(sep)"` semantics (so a leading separator yields a leading empty
segment). -/
def splitSlash : List Char → List (List Char)
  | [] => [[]]
  | c :: rest =>
    if c = '/' then [] :: splitSlash rest
    else
      match splitSlash rest with
      | s :: ss => (c :: s) :: ss
      | [] => [[c]]

/-- Modelled from the spec: segment-wise anchored matching of a path
against a pattern's segments — literal segments match literally, a
placeholder captures one whole path segment; both lists must be exhausted
together (matching is anchored on both ends). -/
def matchSegs : List Seg → List (List Char) → Option (List (String × String))
  | [], [] => some []
  | Seg.lit s :: ps, x :: xs => if s = x then matchSegs ps xs else none
  | Seg.hole n :: ps, x :: xs =>
    (matchSegs ps xs).map (fun r => (n, String.mk x) :: r)
  | _, _ => none

/-- The segment decomposition of a pattern string, when the pattern lies in
the spec's pattern grammar. -/
def patternSegs (pattern : String) : Option (List Seg) :=
  match formatTokens pattern with
  | none => none
  | some toks => segsOfToks toks

/-- Modelled from the spec: the request object at the router's boundary
(`request.py` is not in src); the router reads only its HTTP method name. -/
structure Request where
  method : String

/-- Modelled from the spec: the response object at the router's boundary
(`response.py` is not in src); the router only passes it through. -/
structure Response where
  tag : String

/-- Modelled from the spec: an abstract error a handler may raise during
dispatch; the router propagates it unchanged. -/
structure HandlerErr where
  tag : String
deriving DecidableEq, Repr

/-- Modelled from the spec: a method handler of the View Contract
(`views.py` is not in src).  `params` is the handler's declared parameter
list as `inspect.signature` reports it; `run` is the handler's asynchronous
behavior, returning `some e` when the handler raises `e`. -/
structure Handler where
  params : List String
  run : Request → Response → List (String × String) → Option HandlerErr

/-- Modelled from the spec: a View Contract instance (`views.py` is not in
src) — an addressable mapping from lower-case HTTP method name to handler;
`handlers` is what `get_handlers(view)` returns and what attribute lookup
`getattr(view, method)` consults. -/
structure View where
  handlers : List (String × Handler)

/-- Errors out of `check_route` / `add_route`: `routeDeclarationError`
models `RouteDeclarationError` (from `exceptions.py`, not in src);
`valueError` models the `ValueError` that `Formatter().parse` raises on a
malformed pattern. -/
inductive CheckErr
  | routeDeclarationError
  | valueError
deriving DecidableEq, Repr

/-- The parameter-name list `check_route` derives from a handler:
`dict(inspect.signature(handler).parameters)` then `pop("self", None)`
(signature parameter names are distinct, so removing by filter agrees with
`dict.pop`). -/
def handlerParameters (h : Handler) : List String :=
  h.params.filter (fun p => p ≠ "self")

/-- The body of `check_route`'s per-handler loop: every route parameter
occurs among the handler's (self-stripped) parameters, and every handler
parameter past the first two occurs among the route parameters. -/
def handlerOk (rps : List String) (h : Handler) : Bool :=
  rps.all (fun rp => decide (rp ∈ handlerParameters h)) &&
  ((handlerParameters h).drop 2).all (fun p => decide (p ∈ rps))

/-- Embedding of `check_route(pattern, view)` from `routing.py`: reject a
pattern without a leading `/`; extract the truthy field names as route
parameters; then run the per-handler check over every handler of the
view. -/
def check_route (pattern : String) (view : View) : Except CheckErr Unit :=
  if pattern.data.head? ≠ some '/' then
    Except.error CheckErr.routeDeclarationError
  else
    match formatTokens pattern with
    | none => Except.error CheckErr.valueError
    | some toks =>
      if view.handlers.all (fun mh => handlerOk (routeParameters toks) mh.2)
      then Except.ok ()
      else Except.error CheckErr.routeDeclarationError

/-- Embedding of the `Route` class: the immutable binding of a pattern to a
view under a name. -/
structure Route where
  pattern : String
  view : View
  name : String

/-- Embedding of `Route.url(**kwargs)`: `self._pattern.format(**kwargs)`. -/
def Route.url (r : Route) (m : List (String × String)) : Except UrlErr String :=
  match formatTokens r.pattern with
  | none => Except.error UrlErr.valueError
  | some toks =>
    match formatChars m toks with
    | Except.ok cs => Except.ok (String.mk cs)
    | Except.error e => Except.error e

/-- Embedding of `Route.parse(path)`.  The delegate `parse(pattern, path)`
is the third-party `parse` library (not in src), so the matching itself is
modelled from the spec (§4.1) via `patternSegs` / `matchSegs`; `.named`
is the captured mapping. -/
def Route.parse (r : Route) (path : String) : Option (List (String × String)) :=
  match patternSegs r.pattern with
  | none => none
  | some segs => matchSegs segs (splitSlash path.data)

/-- Outcome of dispatching a request to a route (`Route.__call__`):
`methodNotAllowed` models the raised `HTTPError(405)` (the spec's
`MethodNotAllowed` condition), `handlerRaised e` is an error the handler
raised, propagated unchanged, and `done` a normal completion. -/
inductive DispatchOutcome
  | methodNotAllowed
  | handlerRaised (e : HandlerErr)
  | done
deriving DecidableEq, Repr

/-- Model of `str.lower()` applied character-wise (HTTP method names are
ASCII, where `Char.toLower` agrees with Python's `str.lower`). -/
def lowerStr (s : String) : String :=
  String.mk (s.data.map Char.toLower)

/-- Embedding of `Route.__call__(req, res, **kwargs)`: look up the handler
as `getattr(self._view, req.method.lower())` — `AttributeError` becomes
`HTTPError(405)` — then await `handler(req, res, **kwargs)`. -/
def Route.call (r : Route) (req : Request) (res : Response)
    (kwargs : List (String × String)) : DispatchOutcome :=
  match lookupKey r.view.handlers (lowerStr req.method) with
  | none => DispatchOutcome.methodNotAllowed
  | some h =>
    match h.run req res kwargs with
    | some e => DispatchOutcome.handlerRaised e
    | none => DispatchOutcome.done

/-- Embedding of the `RouteMatch` named tuple. -/
structure RouteMatch where
  route : Route
  params : List (String × String)

/-- Insertion into the registry with Python-dict semantics: overwriting an
existing key keeps its position, a new key is appended at the end. -/
def insertRoute : List (String × Route) → String → Route → List (String × Route)
  | [], n, v => [(n, v)]
  | (k, w) :: rest, n, v =>
    if k = n then (n, v) :: rest else (k, w) :: insertRoute rest n v

/-- Embedding of the `Router` class; `routes` is the registry
`self._routes: Dict[str, Route]`, embedded as an insertion-ordered
association list, the iteration order of a Python dict. -/
structure Router where
  routes : List (String × Route)

/-- Modelled from the spec: the default route name is derived from the
view's `__name__` (`camel_to_snake` lives in `compat.py`, not in src; the
spec fixes no derivation algorithm, only that some derived default is
used). -/
def camel_to_snake (s : String) : String := s

/-- Embedding of `Router.add_route`: compute the effective name (given
name or the derived default, namespace-prefixed with a colon when given),
run `check_route`, and only on success build the `Route` and store it in
the registry.  The view is taken already adapted to the View Contract
(the adaptation of plain callables lives in `views.py`, not in src, and is
out of core scope per the spec §6).  The state threading mirrors the
statement order of the source: the registry is written only after
validation passes. -/
def Router.add_route (rt : Router) (view : View) (viewName : String)
    (pattern : String) (name : Option String) (nspace : Option String) :
    Except CheckErr Route × Router :=
  let n0 := match name with
    | some n => n
    | none => camel_to_snake viewName
  let n1 := match nspace with
    | some ns => ns ++ ":" ++ n0
    | none => n0
  match check_route pattern view with
  | Except.error e => (Except.error e, rt)
  | Except.ok _ =>
    let route : Route := { pattern := pattern, view := view, name := n1 }
    (Except.ok route, { routes := insertRoute rt.routes n1 route })

/-- First-match scan of the registry, in iteration (insertion) order:
the loop body of `Router.match`. -/
def findMatch : List (String × Route) → String → Option RouteMatch
  | [], _ => none
  | (_, route) :: rest, path =>
    match Route.parse route path with
    | some ps => some { route := route, params := ps }
    | none => findMatch rest path

/-- Embedding of `Router.match(path)` (named `matchPath` because `match`
is reserved in Lean). -/
def Router.matchPath (rt : Router) (path : String) : Option RouteMatch :=
  findMatch rt.routes path

/-- Error raised by name-based resolution: `HTTPError(404)` from
`exceptions.py` (not in src), the spec's abstract `RouteNotFound`
condition, carrying only the status code. -/
inductive ResolveErr
  | httpError (code : Nat)
deriving DecidableEq, Repr

/-- Embedding of `Router.get_route_or_404(name)`: registry lookup, with
`KeyError` turned into `HTTPError(404)`. -/
def Router.get_route_or_404 (rt : Router) (name : String) : Except ResolveErr Route :=
  match lookupKey rt.routes name with
  | some r => Except.ok r
  | none => Except.error (ResolveErr.httpError 404)

/-- Python call semantics for `handler(req, res, **kwargs)` against a
declared positional-or-keyword parameter list without defaults (the
spec's handler invocation surface): the first two parameters are bound
positionally (so fewer than two declared parameters is a `TypeError`),
every keyword argument must name a declared parameter not already bound
positionally, and every declared parameter past the first two must be
supplied by a keyword argument. -/
def callAccepts (declared : List String) (kwargs : List (String × String)) : Bool :=
  decide (2 ≤ declared.length) &&
  kwargs.all (fun kv =>
    decide (kv.1 ∈ declared) && !(decide (kv.1 ∈ declared.take 2))) &&
  (declared.drop 2).all (fun p => kwargs.any (fun kv => kv.1 = p))

/-- The declarative shape-match relation of the spec (§4.1): the path's
segments align one-to-one with the pattern's segments, literal segments
literally, a placeholder with any one segment. -/
def ShapeMatches : List Seg → List (List Char) → Prop
  | [], [] => True
  | Seg.lit s :: ps, x :: xs => s = x ∧ ShapeMatches ps xs
  | Seg.hole _ :: ps, _ :: xs => ShapeMatches ps xs
  | _, _ => False

/-- Rendering of one pattern segment under a parameter mapping: a literal
segment is itself, a placeholder renders to its value's characters. -/
def renderSeg (m : List (String × String)) : Seg → List Char
  | Seg.lit s => s
  | Seg.hole n => ((lookupKey m n).getD "").data

/-! ### Concrete fixtures -/

/-- A handler behavior that never raises. -/
def noopRun : Request → Response → List (String × String) → Option HandlerErr :=
  fun _ _ _ => none

/-- A handler declaring only the two conventional parameters. -/
def handlerRR : Handler := { params := ["request", "response"], run := noopRun }

/-- A handler declaring the two conventional parameters plus `id`. -/
def handlerRRId : Handler :=
  { params := ["request", "response", "id"], run := noopRun }

/-- A view with a single `get` handler taking `(request, response)`. -/
def viewRR : View := { handlers := [("get", handlerRR)] }

/-- A view with a single `get` handler taking `(request, response, id)`. -/
def viewRRId : View := { handlers := [("get", handlerRRId)] }

/-- A view defining only `get` and `post`. -/
def viewGetPost : View := { handlers := [("get", handlerRR), ("post", handlerRR)] }

/-- The route binding `/users/\x7bid\x7d` to `viewRRId`. -/
def routeUsers : Route := { pattern := "/users/{id}", view := viewRRId, name := "users" }

/-- The segments of `/users/\x7bid\x7d`. -/
def segsUsers : List Seg :=
  [Seg.lit [], Seg.lit ['u', 's', 'e', 'r', 's'], Seg.hole "id"]

/-- The format tokens of `/users/\x7bid\x7d`. -/
def toksUsers : List FTok :=
  [FTok.lit '/', FTok.lit 'u', FTok.lit 's', FTok.lit 'e', FTok.lit 'r',
   FTok.lit 's', FTok.lit '/', FTok.field "id"]

/-- A pattern with an anonymous brace pair, built with escapes. -/
def itemsAnonPat : String := "/items/\x7b\x7d"

/-- The route binding `/a/\x7bx\x7d`. -/
def routeAX : Route :=
  { pattern := "/a/{x}", view := viewRRId, name := "r1" }

/-- The route binding `/a/\x7by\x7d`. -/
def routeAY : Route :=
  { pattern := "/a/{y}", view := viewRRId, name := "r2" }

/-- A router holding `routeAX` then `routeAY`, in that registration order. -/
def routerAB : Router := { routes := [("r1", routeAX), ("r2", routeAY)] }

/-! ### Helper lemmas -/

theorem lookupKey_isSome {α : Type} (m : List (String × α)) (n : String) :
    (lookupKey m n).isSome ↔ n ∈ m.map Prod.fst := by
  induction m with
  | nil => simp [lookupKey]
  | cons kv rest ih =>
    obtain ⟨k, v⟩ := kv
    by_cases h : k = n
    · simp [lookupKey, h]
    · simp [lookupKey, h, ih, Ne.symm h]

theorem lookupKey_mem {α : Type} (m : List (String × α)) (n : String) (v : α)
    (h : lookupKey m n = some v) : (n, v) ∈ m := by
  induction m with
  | nil => simp [lookupKey] at h
  | cons kv rest ih =>
    obtain ⟨k, w⟩ := kv
    by_cases hk : k = n
    · subst hk
      simp [lookupKey] at h
      subst h
      exact List.mem_cons_self _ _
    · simp [lookupKey, hk] at h
      exact List.mem_cons_of_mem _ (ih h)

theorem lookupKey_cons_ne {α : Type} (m : List (String × α)) (k n : String)
    (v : α) (h : k ≠ n) : lookupKey ((k, v) :: m) n = lookupKey m n := by
  simp [lookupKey, h]

theorem matchSegs_keys (segs : List Seg) (xs : List (List Char))
    (ps : List (String × String)) (h : matchSegs segs xs = some ps) :
    ps.map Prod.fst = holeNames segs := by
  induction segs generalizing xs ps with
  | nil =>
    cases xs with
    | nil => simp [matchSegs] at h; subst h; simp [holeNames]
    | cons x xs => simp [matchSegs] at h
  | cons sg rest ih =>
    cases sg with
    | lit s =>
      cases xs with
      | nil => simp [matchSegs] at h
      | cons x xs =>
        by_cases hx : s = x
        · simp [matchSegs, hx] at h
          simpa [holeNames] using ih xs ps h
        · simp [matchSegs, hx] at h
    | hole n =>
      cases xs with
      | nil => simp [matchSegs] at h
      | cons x xs =>
        simp [matchSegs] at h
        obtain ⟨qs, hqs, hps⟩ := h
        subst hps
        simpa [holeNames] using ih xs qs hqs

theorem matchSegs_isSome_iff (segs : List Seg) (xs : List (List Char)) :
    (matchSegs segs xs).isSome ↔ ShapeMatches segs xs := by
  induction segs generalizing xs with
  | nil =>
    cases xs with
    | nil => simp [matchSegs, ShapeMatches]
    | cons x xs => simp [matchSegs, ShapeMatches]
  | cons sg rest ih =>
    cases sg with
    | lit s =>
      cases xs with
      | nil => simp [matchSegs, ShapeMatches]
      | cons x xs =>
        by_cases hx : s = x <;> simp [matchSegs, ShapeMatches, hx, ih]
    | hole n =>
      cases xs with
      | nil => simp [matchSegs, ShapeMatches]
      | cons x xs => simp [matchSegs, ShapeMatches, ih]

theorem lookupKey_insertRoute (l : List (String × Route)) (n : String) (v : Route) :
    lookupKey (insertRoute l n v) n = some v := by
  induction l with
  | nil => simp [insertRoute, lookupKey]
  | cons kv rest ih =>
    obtain ⟨k, w⟩ := kv
    by_cases hk : k = n
    · simp [insertRoute, hk, lookupKey]
    · simp [insertRoute, hk, lookupKey, ih]

theorem findMatch_eq_none_iff (l : List (String × Route)) (path : String) :
    findMatch l path = none ↔ ∀ e ∈ l, Route.parse e.2 path = none := by
  induction l with
  | nil => simp [findMatch]
  | cons kv rest ih =>
    obtain ⟨k, route⟩ := kv
    cases hp : Route.parse route path with
    | some ps => simp [findMatch, hp]
    | none => simp [findMatch, hp, ih]

theorem findMatch_first (l : List (String × Route)) (path : String)
    (m : RouteMatch) (h : findMatch l path = some m) :
    ∃ pre n post, l = pre ++ (n, m.route) :: post ∧
      Route.parse m.route path = some m.params ∧
      ∀ e ∈ pre, Route.parse e.2 path = none := by
  induction l with
  | nil => simp [findMatch] at h
  | cons kv rest ih =>
    obtain ⟨k, route⟩ := kv
    cases hp : Route.parse route path with
    | some ps =>
      simp [findMatch, hp] at h
      refine ⟨[], k, rest, ?_, ?_, ?_⟩
      · simp [← h]
      · rw [← h]; exact hp
      · simp
    | none =>
      simp [findMatch, hp] at h
      obtain ⟨pre, n, post, hl, hparse, hpre⟩ := ih h
      refine ⟨(k, route) :: pre, n, post, by simp [hl], hparse, ?_⟩
      intro e he
      rcases List.mem_cons.mp he with he | he
      · subst he; exact hp
      · exact hpre e he

theorem mkData (s : String) : String.mk s.data = s := rfl

theorem handlerOk_iff (rps : List String) (h : Handler) :
    handlerOk rps h = true ↔
      (∀ rp ∈ rps, rp ∈ handlerParameters h) ∧
      (∀ p ∈ (handlerParameters h).drop 2, p ∈ rps) := by
  simp [handlerOk, List.all_eq_true]

theorem check_route_ok_iff (pattern : String) (view : View) (toks : List FTok)
    (ht : formatTokens pattern = some toks) :
    check_route pattern view = Except.ok () ↔
      (pattern.data.head? = some '/' ∧
        ∀ mh ∈ view.handlers, handlerOk (routeParameters toks) mh.2 = true) := by
  unfold check_route
  rw [ht]
  by_cases hh : pattern.data.head? = some '/'
  · simp only [hh, ne_eq, not_true_eq_false, if_false, true_and]
    by_cases hb : view.handlers.all (fun mh => handlerOk (routeParameters toks) mh.2) = true
    · rw [if_pos hb]
      simp only [true_iff]
      exact fun mh hm => List.all_eq_true.mp hb mh hm
    · rw [if_neg hb]
      constructor
      · intro h
        simp at h
      · intro hAll
        exact absurd (List.all_eq_true.mpr fun mh hm => hAll mh hm) hb
  · simp [hh]

theorem fieldNames_cons_lit (c : Char) (ts : List FTok) :
    fieldNames (FTok.lit c :: ts) = fieldNames ts := rfl

theorem fieldNames_cons_field (n : String) (ts : List FTok) :
    fieldNames (FTok.field n :: ts) = n :: fieldNames ts := rfl

theorem routeParameters_cons_lit (c : Char) (ts : List FTok) :
    routeParameters (FTok.lit c :: ts) = routeParameters ts := rfl

theorem routeParameters_cons_field (n : String) (ts : List FTok) :
    routeParameters (FTok.field n :: ts) =
      if n = "" then routeParameters ts else n :: routeParameters ts := by
  by_cases hn : n = "" <;> simp only [routeParameters, List.filterMap_cons, hn,
    if_true, if_false]

theorem holeNames_cons_lit (s : List Char) (ss : List Seg) :
    holeNames (Seg.lit s :: ss) = holeNames ss := rfl

theorem holeNames_cons_hole (n : String) (ss : List Seg) :
    holeNames (Seg.hole n :: ss) = n :: holeNames ss := rfl

theorem segsOfToks_names (toks : List FTok) (segs : List Seg)
    (hs : segsOfToks toks = some segs) :
    fieldNames toks = holeNames segs ∧ routeParameters toks = holeNames segs ∧
      "" ∉ holeNames segs := by
  induction toks generalizing segs with
  | nil =>
    simp [segsOfToks] at hs
    subst hs
    exact ⟨rfl, rfl, by simp [holeNames]⟩
  | cons t ts ih =>
    cases t with
    | lit c =>
      by_cases hc : c = '/'
      · subst hc
        simp [segsOfToks] at hs
        obtain ⟨ss, hss, rfl⟩ := hs
        obtain ⟨h1, h2, h3⟩ := ih ss hss
        rw [fieldNames_cons_lit, routeParameters_cons_lit, holeNames_cons_lit]
        exact ⟨h1, h2, h3⟩
      · simp only [segsOfToks, if_neg hc] at hs
        cases hrec : segsOfToks ts with
        | none => rw [hrec] at hs; simp at hs
        | some ss0 =>
          rw [hrec] at hs
          cases ss0 with
          | nil => simp at hs
          | cons sg ss =>
            cases sg with
            | lit s =>
              simp at hs
              subst hs
              obtain ⟨h1, h2, h3⟩ := ih (Seg.lit s :: ss) hrec
              rw [holeNames_cons_lit] at h1 h2 h3
              rw [fieldNames_cons_lit, routeParameters_cons_lit, holeNames_cons_lit]
              exact ⟨h1, h2, h3⟩
            | hole n => simp at hs
    | field n =>
      by_cases hn : n = ""
      · simp [segsOfToks, hn] at hs
      · simp only [segsOfToks, if_neg hn] at hs
        cases hrec : segsOfToks ts with
        | none => rw [hrec] at hs; simp at hs
        | some ss0 =>
          rw [hrec] at hs
          cases ss0 with
          | nil => simp at hs
          | cons sg ss =>
            cases sg with
            | lit s =>
              cases s with
              | nil =>
                simp at hs
                subst hs
                obtain ⟨h1, h2, h3⟩ := ih (Seg.lit [] :: ss) hrec
                rw [holeNames_cons_lit] at h1 h2 h3
                rw [fieldNames_cons_field, routeParameters_cons_field, if_neg hn,
                  holeNames_cons_hole]
                refine ⟨by rw [h1], by rw [h2], ?_⟩
                intro hmem
                rcases List.mem_cons.mp hmem with h | h
                · exact hn h.symm
                · exact h3 h
              | cons c s => simp at hs
            | hole n2 => simp at hs

theorem formatChars_ok_of_all (toks : List FTok) (m : List (String × String))
    (hnil : "" ∉ fieldNames toks)
    (hall : ∀ n ∈ fieldNames toks, (lookupKey m n).isSome) :
    ∃ cs, formatChars m toks = Except.ok cs := by
  induction toks with
  | nil => exact ⟨[], rfl⟩
  | cons t ts ih =>
    cases t with
    | lit c =>
      rw [fieldNames_cons_lit] at hnil hall
      obtain ⟨cs, hcs⟩ := ih hnil hall
      exact ⟨c :: cs, by simp [formatChars, hcs]⟩
    | field n =>
      rw [fieldNames_cons_field] at hnil hall
      simp only [List.mem_cons, not_or] at hnil
      obtain ⟨hne, hnil2⟩ := hnil
      have hn : ¬ n = "" := fun h => hne h.symm
      have hns := hall n (List.mem_cons_self _ _)
      have hall2 : ∀ k ∈ fieldNames ts, (lookupKey m k).isSome :=
        fun k hk => hall k (List.mem_cons_of_mem _ hk)
      obtain ⟨cs, hcs⟩ := ih hnil2 hall2
      cases hv : lookupKey m n with
      | none => rw [hv] at hns; simp at hns
      | some v => exact ⟨v.data ++ cs, by simp [formatChars, hn, hv, hcs]⟩

theorem formatChars_missing (toks : List FTok) (m : List (String × String))
    (n : String) (hnil : "" ∉ fieldNames toks) (hn : n ∈ fieldNames toks)
    (hmiss : lookupKey m n = none) :
    ∃ k, k ∈ fieldNames toks ∧ lookupKey m k = none ∧
      formatChars m toks = Except.error (UrlErr.missingParameter k) := by
  induction toks with
  | nil => simp [fieldNames] at hn
  | cons t ts ih =>
    cases t with
    | lit c =>
      rw [fieldNames_cons_lit] at hnil hn
      obtain ⟨k, hk, hkm, hke⟩ := ih hnil hn
      refine ⟨k, ?_, hkm, by simp [formatChars, hke]⟩
      rw [fieldNames_cons_lit]
      exact hk
    | field f =>
      rw [fieldNames_cons_field] at hnil hn
      simp only [List.mem_cons, not_or] at hnil
      obtain ⟨hfe, hnil2⟩ := hnil
      have hf : ¬ f = "" := fun h => hfe h.symm
      cases hv : lookupKey m f with
      | none =>
        refine ⟨f, ?_, hv, by simp [formatChars, hf, hv]⟩
        rw [fieldNames_cons_field]
        exact List.mem_cons_self _ _
      | some v =>
        rcases List.mem_cons.mp hn with hn1 | hn2
        · subst hn1; rw [hv] at hmiss; simp at hmiss
        · obtain ⟨k, hk, hkm, hke⟩ := ih hnil2 hn2
          refine ⟨k, ?_, hkm, by simp [formatChars, hf, hv, hke]⟩
          rw [fieldNames_cons_field]
          exact List.mem_cons_of_mem _ hk

theorem formatChars_ignores (toks : List FTok) (m : List (String × String))
    (k : String) (v : String) (hk : k ∉ fieldNames toks) :
    formatChars ((k, v) :: m) toks = formatChars m toks := by
  induction toks with
  | nil => rfl
  | cons t ts ih =>
    cases t with
    | lit c =>
      rw [fieldNames_cons_lit] at hk
      simp [formatChars, ih hk]
    | field f =>
      rw [fieldNames_cons_field] at hk
      simp only [List.mem_cons, not_or] at hk
      obtain ⟨hfk, hk2⟩ := hk
      by_cases hf : f = ""
      · simp [formatChars, hf]
      · have hne : k ≠ f := hfk
        simp [formatChars, hf, lookupKey_cons_ne m k f v hne, ih hk2]

theorem splitSlash_append (a : List Char) (rest : List Char) (s : List Char)
    (ss : List (List Char)) (ha : '/' ∉ a) (hr : splitSlash rest = s :: ss) :
    splitSlash (a ++ rest) = (a ++ s) :: ss := by
  induction a with
  | nil => simpa using hr
  | cons c a ih =>
    simp at ha
    obtain ⟨hc, ha'⟩ := ha
    have hc' : ¬ c = '/' := fun h => hc h.symm
    simp [splitSlash, hc', ih ha']

theorem rt_split (toks : List FTok) (segs : List Seg)
    (m : List (String × String)) (out : List Char)
    (hs : segsOfToks toks = some segs)
    (hf : formatChars m toks = Except.ok out)
    (hv : ∀ kv ∈ m, '/' ∉ kv.2.data) :
    splitSlash out = segs.map (renderSeg m) := by
  induction toks generalizing segs out with
  | nil =>
    simp [segsOfToks] at hs
    simp [formatChars] at hf
    subst hs
    subst hf
    simp [splitSlash, renderSeg]
  | cons t ts ih =>
    cases t with
    | lit c =>
      cases hrec : formatChars m ts with
      | error e => simp [formatChars, hrec] at hf
      | ok cs =>
        simp [formatChars, hrec] at hf
        subst hf
        by_cases hc : c = '/'
        · subst hc
          simp [segsOfToks] at hs
          obtain ⟨ss, hss, rfl⟩ := hs
          simp [splitSlash, renderSeg, ih ss cs hss hrec]
        · simp only [segsOfToks, if_neg hc] at hs
          cases hrec2 : segsOfToks ts with
          | none => rw [hrec2] at hs; simp at hs
          | some ss0 =>
            rw [hrec2] at hs
            cases ss0 with
            | nil => simp at hs
            | cons sg ss =>
              cases sg with
              | lit s =>
                simp at hs
                subst hs
                have hsplit := ih (Seg.lit s :: ss) cs hrec2 hrec
                simp [renderSeg] at hsplit
                simp [splitSlash, hc, hsplit, renderSeg]
              | hole n => simp at hs
    | field n =>
      by_cases hn : n = ""
      · simp [segsOfToks, hn] at hs
      · simp only [segsOfToks, if_neg hn] at hs
        cases hrec2 : segsOfToks ts with
        | none => rw [hrec2] at hs; simp at hs
        | some ss0 =>
          rw [hrec2] at hs
          cases ss0 with
          | nil => simp at hs
          | cons sg ss =>
            cases sg with
            | lit s =>
              cases s with
              | nil =>
                simp at hs
                subst hs
                cases hlk : lookupKey m n with
                | none => simp [formatChars, hn, hlk] at hf
                | some v =>
                  cases hrec : formatChars m ts with
                  | error e => simp [formatChars, hn, hlk, hrec] at hf
                  | ok cs =>
                    simp [formatChars, hn, hlk, hrec] at hf
                    subst hf
                    have hsplit := ih (Seg.lit [] :: ss) cs hrec2 hrec
                    simp [renderSeg] at hsplit
                    have hvd : '/' ∉ v.data := hv (n, v) (lookupKey_mem m n v hlk)
                    rw [splitSlash_append v.data cs [] (ss.map (renderSeg m)) hvd hsplit]
                    simp [renderSeg, hlk]
              | cons c s => simp at hs
            | hole n2 => simp at hs

theorem matchSegs_render (segs : List Seg) (m : List (String × String)) :
    matchSegs segs (segs.map (renderSeg m)) =
      some ((holeNames segs).map fun n => (n, (lookupKey m n).getD "")) := by
  induction segs with
  | nil => simp [matchSegs, holeNames]
  | cons sg rest ih =>
    cases sg with
    | lit s => simp [matchSegs, renderSeg, holeNames, ih]
    | hole n => simp [matchSegs, renderSeg, holeNames, ih, mkData]

theorem capture_eq (m : List (String × String))
    (hnd : (m.map Prod.fst).Nodup) :
    (m.map Prod.fst).map (fun n => (n, (lookupKey m n).getD "")) = m := by
  induction m with
  | nil => simp
  | cons kv m ih =>
    obtain ⟨k, v⟩ := kv
    simp only [List.map_cons, List.nodup_cons, List.mem_map] at hnd ⊢
    obtain ⟨hk, hnd'⟩ := hnd
    have h1 : (k, (lookupKey ((k, v) :: m) k).getD "") = (k, v) := by
      simp [lookupKey]
    have hcong : ∀ n ∈ m.map Prod.fst,
        (n, (lookupKey ((k, v) :: m) n).getD "") = (n, (lookupKey m n).getD "") := by
      intro n hn
      have hne : k ≠ n := by
        intro h
        subst h
        rcases List.mem_map.mp hn with ⟨kv2, hkv2, hfst⟩
        exact hk ⟨kv2, hkv2, hfst⟩
      rw [lookupKey_cons_ne m k n v hne]
    rw [h1, List.map_congr_left hcong, ih hnd']

theorem url_eq (r : Route) (m : List (String × String)) (toks : List FTok)
    (ht : formatTokens r.pattern = some toks) :
    Route.url r m =
      (match formatChars m toks with
        | Except.ok cs => Except.ok (String.mk cs)
        | Except.error e => Except.error e) := by
  unfold Route.url
  rw [ht]

theorem parse_eq (r : Route) (path : String) (segs : List Seg)
    (hs : patternSegs r.pattern = some segs) :
    Route.parse r path = matchSegs segs (splitSlash path.data) := by
  unfold Route.parse
  rw [hs]

theorem parse_none (r : Route) (path : String)
    (hs : patternSegs r.pattern = none) : Route.parse r path = none := by
  unfold Route.parse
  rw [hs]

theorem patternSegs_elim (pattern : String) (segs : List Seg)
    (hs : patternSegs pattern = some segs) :
    ∃ toks, formatTokens pattern = some toks ∧ segsOfToks toks = some segs := by
  unfold patternSegs at hs
  cases ht : formatTokens pattern with
  | none => rw [ht] at hs; simp at hs
  | some toks => rw [ht] at hs; exact ⟨toks, rfl, hs⟩

/-! ### The claims -/

/-- C3: for every pattern in the spec's grammar, `Route.parse` returns a
mapping exactly when the concrete path fully matches the pattern's shape
(anchored on both ends, so no partial or prefix matches), and any returned
mapping's keys are exactly the pattern's placeholder names. -/
theorem C3_parse_shape (r : Route) (segs : List Seg) (path : String)
    (hs : patternSegs r.pattern = some segs) :
    ((Route.parse r path).isSome ↔ ShapeMatches segs (splitSlash path.data)) ∧
    (∀ ps, Route.parse r path = some ps → ps.map Prod.fst = holeNames segs) := by
  unfold Route.parse
  rw [hs]
  exact ⟨matchSegs_isSome_iff segs (splitSlash path.data),
    fun ps hps => matchSegs_keys segs (splitSlash path.data) ps hps⟩

/-- Witness for C3 at the route `/users/\x7bid\x7d` and path `/users/42`. -/
theorem C3_parse_shape_witness :
    ((Route.parse routeUsers "/users/42").isSome ↔
      ShapeMatches segsUsers (splitSlash "/users/42".data)) ∧
    ([("id", "42")] : List (String × String)).map Prod.fst = holeNames segsUsers :=
  ⟨(C3_parse_shape routeUsers segsUsers "/users/42" rfl).1,
    (C3_parse_shape routeUsers segsUsers "/users/42" rfl).2 [("id", "42")] rfl⟩

/-- C4: registration is atomic — when `add_route` raises
`RouteDeclarationError`, the registry is exactly as before the call. -/
theorem C4_add_route_atomic (rt : Router) (view : View) (viewName pattern : String)
    (name nspace : Option String)
    (h : (Router.add_route rt view viewName pattern name nspace).1 =
      Except.error CheckErr.routeDeclarationError) :
    (Router.add_route rt view viewName pattern name nspace).2 = rt := by
  unfold Router.add_route at h ⊢
  cases hc : check_route pattern view with
  | error e => simp [hc]
  | ok u => simp [hc] at h

/-- Witness for C4: registering the slash-less pattern `users` fails and
leaves the empty registry untouched. -/
theorem C4_add_route_atomic_witness :
    ((Router.add_route { routes := [] } viewRR "V" "users" (some "n") none).1 =
      Except.error CheckErr.routeDeclarationError) ∧
    (Router.add_route { routes := [] } viewRR "V" "users" (some "n") none).2 =
      { routes := [] } :=
  ⟨rfl, C4_add_route_atomic { routes := [] } viewRR "V" "users" (some "n") none rfl⟩

/-- C5: `match` scans the registry in registration order, returning the
first registered route whose `parse` succeeds together with its extracted
parameters, and `none` exactly when no registered route matches. -/
theorem C5_match_first_registered (rt : Router) (path : String) :
    (Router.matchPath rt path = none ↔
      ∀ e ∈ rt.routes, Route.parse e.2 path = none) ∧
    (∀ m, Router.matchPath rt path = some m →
      ∃ pre n post, rt.routes = pre ++ (n, m.route) :: post ∧
        Route.parse m.route path = some m.params ∧
        ∀ e ∈ pre, Route.parse e.2 path = none) :=
  ⟨findMatch_eq_none_iff rt.routes path,
    fun m h => findMatch_first rt.routes path m h⟩

/-- Witness for C5: on the ambiguous path `/a/7` the first-registered
route `/a/\x7bx\x7d` wins. -/
theorem C5_match_first_registered_witness :
    Router.matchPath routerAB "/a/7" =
      some { route := routeAX, params := [("x", "7")] } ∧
    ∃ pre n post, routerAB.routes = pre ++ (n, routeAX) :: post ∧
      Route.parse routeAX "/a/7" = some [("x", "7")] ∧
      ∀ e ∈ pre, Route.parse e.2 "/a/7" = none := by
  refine ⟨rfl, ?_⟩
  have h := (C5_match_first_registered routerAB "/a/7").2
    { route := routeAX, params := [("x", "7")] } rfl
  exact h

/-- C6: resolving an unregistered name fails with the abstract 404
condition, and registering twice under one name overwrites: resolution
returns the second route. -/
theorem C6_resolve (rt : Router) (name : String) :
    (lookupKey rt.routes name = none →
      Router.get_route_or_404 rt name = Except.error (ResolveErr.httpError 404)) ∧
    (∀ rt1 rt2 viewA viewB vnA vnB patA patB routeA routeB,
      Router.add_route rt viewA vnA patA (some name) none = (Except.ok routeA, rt1) →
      Router.add_route rt1 viewB vnB patB (some name) none = (Except.ok routeB, rt2) →
      Router.get_route_or_404 rt2 name = Except.ok routeB) := by
  constructor
  · intro h
    unfold Router.get_route_or_404
    rw [h]
  · intro rt1 rt2 viewA viewB vnA vnB patA patB routeA routeB h1 h2
    unfold Router.add_route at h2
    cases hc : check_route patB viewB with
    | error e => rw [hc] at h2; simp at h2
    | ok u =>
      rw [hc] at h2
      simp only [Prod.mk.injEq, Except.ok.injEq] at h2
      obtain ⟨hroute, hrt2⟩ := h2
      unfold Router.get_route_or_404
      rw [← hrt2]
      simp [lookupKey_insertRoute, hroute]

/-- Witness for C6: `missing` resolves to the 404 condition on the empty
router, and after registering `/` then `/users/\x7bid\x7d` under the name
`n`, resolution returns the second route. -/
theorem C6_resolve_witness :
    Router.get_route_or_404 { routes := [] } "missing" =
      Except.error (ResolveErr.httpError 404) ∧
    Router.get_route_or_404
      { routes := [("n", { pattern := "/users/{id}", view := viewRRId, name := "n" })] }
      "n" =
      Except.ok { pattern := "/users/{id}", view := viewRRId, name := "n" } := by
  constructor
  · exact (C6_resolve { routes := [] } "missing").1 rfl
  · exact (C6_resolve { routes := [] } "n").2
      { routes := [("n", { pattern := "/", view := viewRR, name := "n" })] }
      { routes := [("n", { pattern := "/users/{id}", view := viewRRId, name := "n" })] }
      viewRR viewRRId "A" "B" "/" "/users/{id}"
      { pattern := "/", view := viewRR, name := "n" }
      { pattern := "/users/{id}", view := viewRRId, name := "n" }
      rfl rfl

/-- C7: dispatch resolves the handler by case-insensitive method lookup,
fails with the 405 condition exactly when the view has no handler for the
request's method, and otherwise runs the handler on
`(request, response, parameters)`, propagating its error unchanged. -/
theorem C7_dispatch (r : Route) (req : Request) (res : Response)
    (kwargs : List (String × String)) :
    (Route.call r req res kwargs = DispatchOutcome.methodNotAllowed ↔
      lookupKey r.view.handlers (lowerStr req.method) = none) ∧
    (∀ h, lookupKey r.view.handlers (lowerStr req.method) = some h →
      Route.call r req res kwargs =
        match h.run req res kwargs with
        | some e => DispatchOutcome.handlerRaised e
        | none => DispatchOutcome.done) := by
  constructor
  · unfold Route.call
    cases hl : lookupKey r.view.handlers (lowerStr req.method) with
    | none => simp
    | some h => cases hr : h.run req res kwargs <;> simp [hr]
  · intro h hl
    unfold Route.call
    rw [hl]

/-- Witness for C7: a `DELETE` request dispatched to a view defining only
`get` and `post` yields the 405 condition. -/
theorem C7_dispatch_witness :
    Route.call { pattern := "/", view := viewGetPost, name := "n" }
      { method := "DELETE" } { tag := "" } [] =
      DispatchOutcome.methodNotAllowed :=
  (C7_dispatch { pattern := "/", view := viewGetPost, name := "n" }
    { method := "DELETE" } { tag := "" } []).1.mpr rfl

/-- C10: an anonymous brace pair contributes no route parameters, so the
pattern `/items/\x7b\x7d` with a view whose handler declares only
`(request, response)` passes validation. -/
theorem C10_anonymous_field :
    routeParameters ((formatTokens itemsAnonPat).getD []) = [] ∧
    check_route itemsAnonPat viewRR = Except.ok () :=
  ⟨rfl, rfl⟩

/-- C2 (amended): with a well-formed pattern, `check_route` raises
`RouteDeclarationError` iff the pattern lacks a leading separator, or some
handler has a route parameter absent from its full (self-stripped)
parameter list, or some handler parameter past the first two absent from
the route parameters.  (The source validates placeholders against the
handler's full parameter list, first two included, not against the list
after excluding them as the claim states.) -/
theorem C2_check_route_rde_iff (pattern : String) (view : View) (toks : List FTok)
    (ht : formatTokens pattern = some toks) :
    check_route pattern view = Except.error CheckErr.routeDeclarationError ↔
      (pattern.data.head? ≠ some '/' ∨
        ∃ mh ∈ view.handlers,
          (∃ rp ∈ routeParameters toks, rp ∉ handlerParameters mh.2) ∨
          (∃ p ∈ (handlerParameters mh.2).drop 2, p ∉ routeParameters toks)) := by
  unfold check_route
  rw [ht]
  by_cases hh : pattern.data.head? = some '/'
  · simp only [hh, ne_eq, not_true_eq_false, if_false, false_or]
    by_cases hb :
        view.handlers.all (fun mh => handlerOk (routeParameters toks) mh.2) = true
    · rw [if_pos hb]
      constructor
      · intro h
        simp at h
      · rintro ⟨mh, hmh, hbad⟩
        have hok := List.all_eq_true.mp hb mh hmh
        rw [handlerOk_iff] at hok
        rcases hbad with ⟨rp, hrp, hnot⟩ | ⟨p, hp, hnot⟩
        · exact absurd (hok.1 rp hrp) hnot
        · exact absurd (hok.2 p hp) hnot
    · rw [if_neg hb]
      constructor
      · intro _
        rw [List.all_eq_true] at hb
        push_neg at hb
        obtain ⟨mh, hmh, hok⟩ := hb
        refine ⟨mh, hmh, ?_⟩
        have hnotok : ¬ ((∀ rp ∈ routeParameters toks, rp ∈ handlerParameters mh.2) ∧
            (∀ p ∈ (handlerParameters mh.2).drop 2, p ∈ routeParameters toks)) := by
          rw [← handlerOk_iff]
          exact hok
        rw [not_and_or] at hnotok
        rcases hnotok with h1 | h2
        · left
          push_neg at h1
          exact h1
        · right
          push_neg at h2
          exact h2
      · intro _
        rfl
  · simp [hh]

/-- Counterexample to C2 as stated: for pattern `/\x7brequest\x7d` and a
view whose only handler declares exactly `(request, response)`, the
placeholder set differs from the handler's parameters after the first two,
yet validation passes. -/
theorem C2_counterexample :
    check_route "/{request}" viewRR = Except.ok () ∧
    formatTokens "/{request}" = some [FTok.lit '/', FTok.field "request"] ∧
    "request" ∈ routeParameters [FTok.lit '/', FTok.field "request"] ∧
    "request" ∉ (handlerParameters handlerRR).drop 2 := by
  refine ⟨rfl, rfl, ?_, ?_⟩
  · decide
  · decide

/-- Witness for C2 (amended): the slash-less pattern `users` is rejected
with `RouteDeclarationError`. -/
theorem C2_check_route_rde_iff_witness :
    check_route "users" viewRR = Except.error CheckErr.routeDeclarationError :=
  (C2_check_route_rde_iff "users" viewRR
    [FTok.lit 'u', FTok.lit 's', FTok.lit 'e', FTok.lit 'r', FTok.lit 's']
    rfl).mpr (Or.inl (by decide))

/-- C8: `Route.url` substitutes named placeholders with the supplied
values: with every placeholder supplied it succeeds, with some placeholder
unsupplied it fails with the `MissingParameter` condition naming a missing
placeholder, and a supplied parameter matching no placeholder is
ignored. -/
theorem C8_url (r : Route) (toks : List FTok) (m : List (String × String))
    (ht : formatTokens r.pattern = some toks) (hnil : "" ∉ fieldNames toks) :
    ((∀ n ∈ fieldNames toks, (lookupKey m n).isSome) →
      ∃ s, Route.url r m = Except.ok s) ∧
    (∀ n ∈ fieldNames toks, lookupKey m n = none →
      ∃ k ∈ fieldNames toks, lookupKey m k = none ∧
        Route.url r m = Except.error (UrlErr.missingParameter k)) ∧
    (∀ k v, k ∉ fieldNames toks → Route.url r ((k, v) :: m) = Route.url r m) := by
  refine ⟨?_, ?_, ?_⟩
  · intro hall
    obtain ⟨cs, hcs⟩ := formatChars_ok_of_all toks m hnil hall
    exact ⟨String.mk cs, by rw [url_eq r m toks ht, hcs]⟩
  · intro n hn hmiss
    obtain ⟨k, hk, hkm, hke⟩ := formatChars_missing toks m n hnil hn hmiss
    exact ⟨k, hk, hkm, by rw [url_eq r m toks ht, hke]⟩
  · intro k v hk
    rw [url_eq r ((k, v) :: m) toks ht, url_eq r m toks ht,
      formatChars_ignores toks m k v hk]

/-- Witness for C8 on the route `/users/\x7bid\x7d`: substitution succeeds
with `id` supplied, fails with `MissingParameter` on the empty mapping,
and ignores the unused parameter `x`. -/
theorem C8_url_witness :
    (∃ s, Route.url routeUsers [("id", "42")] = Except.ok s) ∧
    (∃ k ∈ fieldNames toksUsers, lookupKey ([] : List (String × String)) k = none ∧
      Route.url routeUsers [] = Except.error (UrlErr.missingParameter k)) ∧
    Route.url routeUsers [("x", "1"), ("id", "42")] =
      Route.url routeUsers [("id", "42")] := by
  refine ⟨?_, ?_, ?_⟩
  · exact (C8_url routeUsers toksUsers [("id", "42")] rfl (by decide)).1 (by decide)
  · exact (C8_url routeUsers toksUsers [] rfl (by decide)).2.1 "id" (by decide) rfl
  · exact (C8_url routeUsers toksUsers [("id", "42")] rfl (by decide)).2.2
      "x" "1" (by decide)

/-- C9: round-trip — for a pattern in the spec's grammar, when the
parameter mapping's keys are exactly the pattern's placeholder names (no
duplicates) and the values contain no separator, `url` succeeds and
`parse` of the produced path returns the mapping again. -/
theorem C9_roundtrip (r : Route) (toks : List FTok) (segs : List Seg)
    (m : List (String × String))
    (ht : formatTokens r.pattern = some toks)
    (hs : segsOfToks toks = some segs)
    (hkeys : m.map Prod.fst = holeNames segs)
    (hnd : (m.map Prod.fst).Nodup)
    (hv : ∀ kv ∈ m, '/' ∉ kv.2.data) :
    ∃ s, Route.url r m = Except.ok s ∧ Route.parse r s = some m := by
  obtain ⟨hfn, hrp, hne⟩ := segsOfToks_names toks segs hs
  have hnil : "" ∉ fieldNames toks := by
    rw [hfn]
    exact hne
  have hall : ∀ n ∈ fieldNames toks, (lookupKey m n).isSome := by
    intro n hn
    rw [hfn, ← hkeys] at hn
    exact (lookupKey_isSome m n).mpr hn
  obtain ⟨cs, hcs⟩ := formatChars_ok_of_all toks m hnil hall
  have hsegs : patternSegs r.pattern = some segs := by
    unfold patternSegs
    rw [ht]
    exact hs
  refine ⟨String.mk cs, ?_, ?_⟩
  · rw [url_eq r m toks ht, hcs]
  · rw [parse_eq r (String.mk cs) segs hsegs]
    have hdata : (String.mk cs).data = cs := rfl
    rw [hdata, rt_split toks segs m cs hs hcs hv, matchSegs_render segs m,
      ← hkeys, capture_eq m hnd]

/-- Witness for C9 at pattern `/users/\x7bid\x7d` and mapping `id = 42`:
`url` produces `/users/42`, `parse` recovers the mapping, and the general
round trip applies. -/
theorem C9_roundtrip_witness :
    Route.url routeUsers [("id", "42")] = Except.ok "/users/42" ∧
    Route.parse routeUsers "/users/42" = some [("id", "42")] ∧
    ∃ s, Route.url routeUsers [("id", "42")] = Except.ok s ∧
      Route.parse routeUsers s = some [("id", "42")] :=
  ⟨rfl, rfl,
    C9_roundtrip routeUsers toksUsers segsUsers [("id", "42")] rfl rfl rfl
      (by decide) (by decide)⟩

/-- C1 (amended): if validation passed for the route's pattern and view,
the path matched with parameters `params`, and dispatch resolves handler
`h` — then, provided `h` declares at least two (self-stripped) parameters
and no matched parameter collides with the names of the first two, the
call `h(request, response, **params)` binds without missing- or
extra-argument failure.  (Both provisos are forced by the source: the
validator checks placeholders against the handler's full parameter list,
so a placeholder named after one of the first two parameters passes
validation and then collides at dispatch, and a handler with fewer than
two parameters passes validation for a placeholder-free pattern and then
cannot accept the two positional arguments.) -/
theorem C1_dispatch_guarantee (r : Route) (path : String)
    (params : List (String × String)) (h : Handler) (req : Request)
    (hok : check_route r.pattern r.view = Except.ok ())
    (hparse : Route.parse r path = some params)
    (hl : lookupKey r.view.handlers (lowerStr req.method) = some h)
    (hlen : 2 ≤ (handlerParameters h).length)
    (hfree : ∀ kv ∈ params, kv.1 ∉ (handlerParameters h).take 2) :
    callAccepts (handlerParameters h) params = true := by
  cases hps : patternSegs r.pattern with
  | none =>
    rw [parse_none r path hps] at hparse
    simp at hparse
  | some segs =>
    rw [parse_eq r path segs hps] at hparse
    obtain ⟨toks, ht, hstoks⟩ := patternSegs_elim r.pattern segs hps
    have hkeys := matchSegs_keys segs (splitSlash path.data) params hparse
    obtain ⟨hfn, hrp, hne⟩ := segsOfToks_names toks segs hstoks
    have hmem := lookupKey_mem r.view.handlers (lowerStr req.method) h hl
    have hcheck := ((check_route_ok_iff r.pattern r.view toks ht).mp hok).2
      (lowerStr req.method, h) hmem
    rw [handlerOk_iff] at hcheck
    obtain ⟨hdir1, hdir2⟩ := hcheck
    have hkeys2 : params.map Prod.fst = routeParameters toks := by
      rw [hkeys, hrp]
    simp only [callAccepts, Bool.and_eq_true, List.all_eq_true,
      List.any_eq_true, decide_eq_true_eq, Bool.not_eq_true',
      decide_eq_false_iff_not]
    refine ⟨⟨hlen, ?_⟩, ?_⟩
    · intro kv hkv
      refine ⟨?_, hfree kv hkv⟩
      have hin : kv.1 ∈ params.map Prod.fst := List.mem_map_of_mem Prod.fst hkv
      rw [hkeys2] at hin
      exact hdir1 kv.1 hin
    · intro p hp
      have hin := hdir2 p hp
      rw [← hkeys2] at hin
      rcases List.mem_map.mp hin with ⟨kv, hkv, heq⟩
      exact ⟨kv, hkv, heq⟩

/-- Counterexample to C1 as stated: registering `/\x7brequest\x7d` with a
view whose `get` handler declares `(request, response)` succeeds, the
path `/x` then matches with the parameter mapping `request = x`, dispatch
resolves the `get` handler — yet the handler cannot accept
`(request, response)` plus the keyword `request`: the call fails with a
duplicate binding for `request`. -/
theorem C1_counterexample :
    (Router.add_route { routes := [] } viewRR "V" "/{request}" (some "n") none).1 =
      Except.ok { pattern := "/{request}", view := viewRR, name := "n" } ∧
    Router.matchPath
      (Router.add_route { routes := [] } viewRR "V" "/{request}" (some "n") none).2
      "/x" =
      some { route := { pattern := "/{request}", view := viewRR, name := "n" },
             params := [("request", "x")] } ∧
    lookupKey viewRR.handlers (lowerStr "GET") = some handlerRR ∧
    callAccepts (handlerParameters handlerRR) [("request", "x")] = false :=
  ⟨rfl, rfl, rfl, rfl⟩

/-- Witness for C1 (amended) on `/users/\x7bid\x7d`: a matched `GET`
request with `id = 7` is accepted by the handler declaring
`(request, response, id)`. -/
theorem C1_dispatch_guarantee_witness :
    callAccepts (handlerParameters handlerRRId) [("id", "7")] = true :=
  C1_dispatch_guarantee routeUsers "/users/7" [("id", "7")] handlerRRId
    { method := "GET" } rfl rfl rfl (by decide) (by decide)

end Bocadillo
